import Mathlib

/-!
Verification of the msgvault SDK query layer (`msgvault_sdk/query.py`).

This file gives a shallow embedding of the immutable query builder
(`MessageQuery`), its grouping / drill-down engine (`GroupedQuery`,
`Group`, `_drill_down`) and the three change-logged mutation operations
(`delete`, `add_label`, `remove_label`), together with theorems about the
properties claimed of them.

Modelling conventions:
* the SQLite store is a `Db` value holding the rows of the tables the
  query layer touches (`messages`, `participants`, `sources`, `labels`,
  `message_labels`, `message_recipients`);
* SQL `WHERE` clauses become boolean predicates over a row in the context
  of a `Db`; each `_Filter` the Python code can append is one constructor
  of the inductive type `Filter`, and `Filter.eval` is the semantics of
  its clause (SQL three-valued logic: a NULL comparison keeps no row);
* SQL `ORDER BY` uses SQLite's BINARY collation for text, modelled by a
  byte-wise character comparison; ties are resolved by a stable
  insertion sort, a deterministic refinement of SQLite's unspecified
  tie order;
* the sqlite3 connection and the change log, which in Python are carried
  by the query object (`_conn`, `_changelog`), are passed as explicit
  state (`Db`, `List ChangeLogEntry`); a mutation returns the new state;
* Python exceptions become `Except VaultError`.
-/

namespace Msgvault

/-- A row of the `participants` table: `id`, `email_address`,
`display_name` (nullable), `domain` (nullable). -/
structure Participant where
  id : Nat
  email : String
  displayName : Option String
  domain : Option String
deriving Repr, DecidableEq

/-- A row of the `sources` table (an account): `id`, `identifier`. -/
structure Source where
  id : Nat
  identifier : String
deriving Repr, DecidableEq

/-- A row of the `labels` table: `id`, `name`, `label_type`. -/
structure Label where
  id : Nat
  name : String
  labelType : String
deriving Repr, DecidableEq

/-- A row of the `messages` table, restricted to the columns the query
layer reads: `id`, `source_id`, `sender_id` (nullable), `sent_at`,
`subject` (nullable), `has_attachments`, `size_estimate` (nullable),
`deleted_at` (nullable; `none` = alive). -/
structure Message where
  id : Nat
  sourceId : Nat
  senderId : Option Nat
  sentAt : String
  subject : Option String
  hasAttachments : Bool
  sizeEstimate : Option Int
  deletedAt : Option String
deriving Repr, DecidableEq

/-- The relational store the query layer runs against. `messageLabels`
and `messageRecipients` are the association tables
(`message_id, label_id`) and (`message_id, participant_id`). -/
structure Db where
  messages : List Message
  participants : List Participant
  sources : List Source
  labels : List Label
  messageLabels : List (Nat × Nat)
  messageRecipients : List (Nat × Nat)
deriving Repr, DecidableEq

/-- Byte-wise character order (SQLite BINARY collation on ASCII text). -/
def charLt (a b : Char) : Bool := a.toNat < b.toNat

/-- Lexicographic byte-wise comparison of character lists. -/
def charListLt : List Char → List Char → Bool
  | [], [] => false
  | [], _ :: _ => true
  | _ :: _, [] => false
  | a :: as, b :: bs => charLt a b || (a == b && charListLt as bs)

/-- SQL text comparison `a < b` under the BINARY collation. -/
def strLt (a b : String) : Bool := charListLt a.data b.data

/-- SQL text comparison `a <= b` under the BINARY collation. -/
def strLe (a b : String) : Bool := !strLt b a

/-- Fold an ASCII upper-case letter to lower case; SQLite `LIKE` is
case-insensitive for ASCII only. -/
def asciiLower (c : Char) : Char :=
  if 'A' ≤ c ∧ c ≤ 'Z' then Char.ofNat (c.toNat + 32) else c

/-- The suffixes of a character list, longest first. -/
def suffixes : List Char → List (List Char)
  | [] => [[]]
  | c :: cs => (c :: cs) :: suffixes cs

/-- SQL `LIKE` matching: first argument is the pattern (`%` matches any
run, `_` any single character), second the text. Structured as
recursion on the pattern: `%` consumes any prefix of the text, i.e. the
rest of the pattern must match some suffix. -/
def likeMatch : List Char → List Char → Bool
  | [], s => s.isEmpty
  | '%' :: ps, s => (suffixes s).any fun t => likeMatch ps t
  | '_' :: ps, s =>
      match s with
      | [] => false
      | _ :: cs => likeMatch ps cs
  | p :: ps, s =>
      match s with
      | [] => false
      | c :: cs => (asciiLower p == asciiLower c) && likeMatch ps cs

/-- SQL `s LIKE pat`. -/
def strLike (s pat : String) : Bool := likeMatch pat.data s.data

/-- One appended `_Filter(clause, params)` value: each constructor is one
of the clauses `MessageQuery.filter` can generate, with its bound
parameter. `deletedNull` is the clause `m.deleted_at IS NULL` (also used
as the implicit alive-only clause of `_base_where`); `deletedNotNull` is
`m.deleted_at IS NOT NULL`. -/
inductive Filter
  | sender (v : String)
  | senderLike (v : String)
  | recipient (v : String)
  | recipientLike (v : String)
  | domain (v : String)
  | label (v : String)
  | account (v : String)
  | before (v : String)
  | after (v : String)
  | minSize (v : Int)
  | maxSize (v : Int)
  | hasAttachments (v : Bool)
  | subjectLike (v : String)
  | deletedNotNull
  | deletedNull
deriving Repr, DecidableEq

/-- Semantics of one filter clause on a message row, in the context of a
database (for the `EXISTS (...)` subqueries). NULL comparisons keep no
row, matching SQL three-valued logic. -/
def Filter.eval (db : Db) (m : Message) : Filter → Bool
  | .sender v =>
      db.participants.any fun p => some p.id == m.senderId && p.email == v
  | .senderLike v =>
      db.participants.any fun p => some p.id == m.senderId && strLike p.email v
  | .recipient v =>
      db.messageRecipients.any fun mr => mr.1 == m.id &&
        db.participants.any fun p => p.id == mr.2 && p.email == v
  | .recipientLike v =>
      db.messageRecipients.any fun mr => mr.1 == m.id &&
        db.participants.any fun p => p.id == mr.2 && strLike p.email v
  | .domain v =>
      db.participants.any fun p => some p.id == m.senderId && p.domain == some v
  | .label v =>
      db.messageLabels.any fun ml => ml.1 == m.id &&
        db.labels.any fun l => l.id == ml.2 && l.name == v
  | .account v =>
      db.sources.any fun s => s.id == m.sourceId && s.identifier == v
  | .before v => strLt m.sentAt v
  | .after v => strLe v m.sentAt
  | .minSize v =>
      match m.sizeEstimate with
      | some n => decide (v ≤ n)
      | none => false
  | .maxSize v =>
      match m.sizeEstimate with
      | some n => decide (n < v)
      | none => false
  | .hasAttachments v => m.hasAttachments == v
  | .subjectLike v =>
      match m.subject with
      | some s => strLike s v
      | none => false
  | .deletedNotNull => !(m.deletedAt == none)
  | .deletedNull => m.deletedAt == none

/-- A date filter value: either a pre-formatted timestamp string or a
structured `datetime` value (`_to_iso` normalizes the latter). -/
inductive DateVal
  | str (s : String)
  | dt (year month day hour minute second : Nat)
deriving Repr, DecidableEq

/-- Zero-pad a numeral to two digits (Python `%M`-style formatting). -/
def pad2 (n : Nat) : String :=
  if n < 10 then "0" ++ toString n else toString n

/-- Zero-pad a numeral to four digits (Python `%Y`-style formatting). -/
def pad4 (n : Nat) : String :=
  if n < 10 then "000" ++ toString n
  else if n < 100 then "00" ++ toString n
  else if n < 1000 then "0" ++ toString n
  else toString n

/-- `_to_iso`: a `datetime` is formatted with
`strftime("%Y-%m-%dT%H:%M:%SZ")`; a string passes through unchanged. -/
def toIso : DateVal → String
  | .str s => s
  | .dt y mo d h mi s =>
      pad4 y ++ "-" ++ pad2 mo ++ "-" ++ pad2 d ++ "T" ++
        pad2 h ++ ":" ++ pad2 mi ++ ":" ++ pad2 s ++ "Z"

/-- The keyword arguments of `MessageQuery.filter(**kwargs)`. A field of
value `none` means the keyword is absent from `kwargs`. `is_deleted` is
tri-state: `some (some true)` / `some (some false)` / `some none`
correspond to passing `True` / `False` / `None`. `unrecognized` holds
the names of any further keyword arguments, which the Python code never
inspects. -/
structure Kwargs where
  sender : Option String := none
  sender_like : Option String := none
  recipient : Option String := none
  recipient_like : Option String := none
  domain : Option String := none
  label : Option String := none
  account : Option String := none
  before : Option DateVal := none
  after : Option DateVal := none
  min_size : Option Int := none
  max_size : Option Int := none
  has_attachments : Option Bool := none
  subject_like : Option String := none
  is_deleted : Option (Option Bool) := none
  unrecognized : List String := []
deriving Repr, DecidableEq

/-- The empty keyword set. -/
def Kwargs.empty : Kwargs := {}

/-- The list `new_filters` built by one `filter(**kwargs)` call, in the
order the source appends them. -/
def Kwargs.newFilters (k : Kwargs) : List Filter :=
  (k.sender.map Filter.sender).toList ++
  (k.sender_like.map Filter.senderLike).toList ++
  (k.recipient.map Filter.recipient).toList ++
  (k.recipient_like.map Filter.recipientLike).toList ++
  (k.domain.map Filter.domain).toList ++
  (k.label.map Filter.label).toList ++
  (k.account.map Filter.account).toList ++
  (k.before.map fun v => Filter.before (toIso v)).toList ++
  (k.after.map fun v => Filter.after (toIso v)).toList ++
  (k.min_size.map Filter.minSize).toList ++
  (k.max_size.map Filter.maxSize).toList ++
  (k.has_attachments.map Filter.hasAttachments).toList ++
  (k.subject_like.map Filter.subjectLike).toList ++
  (match k.is_deleted with
   | some (some true) => [Filter.deletedNotNull]
   | some (some false) => [Filter.deletedNull]
   | _ => [])

/-- Whether this `filter` call sets `include_deleted = True` (the
`is_deleted=True` and `is_deleted=None` branches of the source). -/
def Kwargs.flipsInclude (k : Kwargs) : Bool :=
  match k.is_deleted with
  | some (some true) => true
  | some none => true
  | _ => false

/-- `MessageQuery`: the immutable, chainable query builder. The sqlite3
connection and change log of the Python object are passed separately to
the execution functions; the remaining slots are modelled as fields.
`sort` holds a validated sort field name and the `desc` flag. -/
structure MessageQuery where
  filters : List Filter := []
  sort : Option (String × Bool) := none
  limitVal : Option Int := none
  offsetVal : Option Int := none
  includeDeleted : Bool := false
  writable : Bool := false
deriving Repr, DecidableEq

/-- Errors raised by the query layer: `VaultReadOnlyError` and
`ValueError` (with the offending input). -/
inductive VaultError
  | readOnly
  | valueError (input : String)
deriving Repr, DecidableEq

/-- `MessageQuery.filter(**kwargs)`: returns a clone with the new
filters appended and `include_deleted` possibly flipped to `True`. -/
def MessageQuery.filter (q : MessageQuery) (k : Kwargs) : MessageQuery :=
  { q with
    filters := q.filters ++ k.newFilters
    includeDeleted := q.includeDeleted || k.flipsInclude }

/-- The keys of `_SORT_FIELDS`. -/
def sortFields : List String := ["date", "sender", "subject", "size"]

/-- `MessageQuery.sort_by(field, desc)`: validates the field against
`_SORT_FIELDS`, raising `ValueError` for an unknown field. -/
def MessageQuery.sort_by (q : MessageQuery) (field : String) (desc : Bool) :
    Except VaultError MessageQuery :=
  if field ∈ sortFields then .ok { q with sort := some (field, desc) }
  else .error (.valueError field)

/-- `MessageQuery.limit(n)`. -/
def MessageQuery.limit (q : MessageQuery) (n : Int) : MessageQuery :=
  { q with limitVal := some n }

/-- `MessageQuery.offset(n)`. -/
def MessageQuery.offset (q : MessageQuery) (n : Int) : MessageQuery :=
  { q with offsetVal := some n }

/-- `_base_where`: the list of WHERE clauses — the implicit alive-only
clause (unless `include_deleted` is set) followed by the appended
filters, combined with AND. -/
def MessageQuery.baseWhere (q : MessageQuery) : List Filter :=
  (if q.includeDeleted then [] else [Filter.deletedNull]) ++ q.filters

/-- Whether a message row satisfies the query's WHERE condition. -/
def MessageQuery.matchRow (q : MessageQuery) (db : Db) (m : Message) : Bool :=
  q.baseWhere.all (Filter.eval db m)

/-- `MessageQuery.count()`: `SELECT COUNT(*)` under `_base_where`,
ignoring sort and pagination. -/
def MessageQuery.count (q : MessageQuery) (db : Db) : Nat :=
  (db.messages.filter (q.matchRow db)).length

/-- A SQL scalar for ORDER BY comparison; SQLite orders NULL below
numeric values and numeric values below text. -/
inductive SqlVal
  | null
  | int (n : Int)
  | text (s : String)
deriving Repr, DecidableEq

/-- SQLite ordering on scalars (ascending). -/
def SqlVal.le : SqlVal → SqlVal → Bool
  | .null, _ => true
  | _, .null => false
  | .int a, .int b => decide (a ≤ b)
  | .int _, .text _ => true
  | .text _, .int _ => false
  | .text a, .text b => strLe a b

/-- The ORDER BY key of `_SORT_FIELDS[field]` for one message row. The
`sender` field is a scalar subquery over `participants` (NULL when the
sender does not resolve). -/
def sortKey (db : Db) (field : String) (m : Message) : SqlVal :=
  if field == "date" then .text m.sentAt
  else if field == "sender" then
    match db.participants.find? fun p => some p.id == m.senderId with
    | some p => .text p.email
    | none => .null
  else if field == "subject" then
    match m.subject with
    | some s => .text s
    | none => .null
  else
    match m.sizeEstimate with
    | some n => .int n
    | none => .null

/-- The row comparison realized by the generated ORDER BY clause;
without an explicit sort the source orders by `m.sent_at DESC`. -/
def MessageQuery.orderLe (q : MessageQuery) (db : Db) (a b : Message) : Bool :=
  match q.sort with
  | some (f, desc) =>
      if desc then SqlVal.le (sortKey db f b) (sortKey db f a)
      else SqlVal.le (sortKey db f a) (sortKey db f b)
  | none => SqlVal.le (.text b.sentAt) (.text a.sentAt)

/-- Insert an element into a run already ordered by `le`, before the
first element it compares below. -/
def insertSorted {A : Type} (le : A → A → Bool) (a : A) : List A → List A
  | [] => [a]
  | b :: t => if le a b then a :: b :: t else b :: insertSorted le a t

/-- Stable insertion sort, the deterministic refinement used for the
generated ORDER BY clauses (SQLite leaves the order of ties
unspecified). -/
def insertionSort {A : Type} (le : A → A → Bool) : List A → List A
  | [] => []
  | a :: t => insertSorted le a (insertionSort le t)

/-- `LIMIT`/`OFFSET` on the ordered rows: skip the offset (SQLite treats
a negative offset as 0), then cap at the limit when one is set; the
`LIMIT -1` the source emits for offset-only queries, and any negative
limit, mean "no cap". -/
def applyPage (limitVal offsetVal : Option Int) (l : List Message) : List Message :=
  let off : Nat :=
    match offsetVal with
    | some n => n.toNat
    | none => 0
  let dropped := l.drop off
  match limitVal with
  | some n => if n < 0 then dropped else dropped.take n.toNat
  | none => dropped

/-- The rows produced by `_build_select`: filter, order, paginate. This
is the row sequence `__iter__` yields (each iteration re-runs it). -/
def MessageQuery.selectRows (q : MessageQuery) (db : Db) : List Message :=
  applyPage q.limitVal q.offsetVal
    (insertionSort (q.orderLe db) (db.messages.filter (q.matchRow db)))

/-- `MessageQuery.message_ids()`: the id column of the full select. -/
def MessageQuery.message_ids (q : MessageQuery) (db : Db) : List Nat :=
  (q.selectRows db).map Message.id

/-- Operation-specific metadata of a change-log entry: the `details` /
`undo_data` dictionaries (`{"label": name, "label_id": id}` shapes). -/
structure ChangeDetails where
  labelName : Option String := none
  labelId : Option Nat := none
deriving Repr, DecidableEq

/-- Modelled from the spec: `changelog.py` is not part of the sources.
Per §3/§4.4 a `ChangeLogEntry` records the operation kind, the affected
message ids, operation-specific `details` and `undo_data`, and an
`undone` flag that starts out false. -/
structure ChangeLogEntry where
  operation : String
  messageIds : List Nat
  details : Option ChangeDetails
  undoData : Option ChangeDetails
  undone : Bool
deriving Repr, DecidableEq

/-- Modelled from the spec: `ChangeLog._record(operation, ids, details,
undo_data)` of the missing `changelog.py`; §4.4 says it "appends one
entry" to the log, created with `undone = false`, in the same atomic
unit as the data mutation. -/
def ChangeLog.record (log : List ChangeLogEntry) (operation : String)
    (ids : List Nat) (details undoData : Option ChangeDetails) :
    List ChangeLogEntry :=
  log ++ [⟨operation, ids, details, undoData, false⟩]

/-- The mutable state a mutation call touches: the store and the change
log (one transaction context). -/
structure VaultState where
  db : Db
  log : List ChangeLogEntry
deriving Repr, DecidableEq

/-- `MessageQuery.delete()`: soft-delete all matching messages. `now` is
the store clock (`strftime('now')`). The `UPDATE` touches only rows in
the id snapshot whose `deleted_at` is still NULL; the return value is
the length of the snapshot. -/
def MessageQuery.delete (q : MessageQuery) (s : VaultState) (now : String) :
    Except VaultError (Nat × VaultState) :=
  if !q.writable then .error .readOnly
  else
    let ids := q.message_ids s.db
    if ids.isEmpty then .ok (0, s)
    else
      let log2 := ChangeLog.record s.log "delete" ids none none
      let msgs := s.db.messages.map fun m =>
        if ids.contains m.id && m.deletedAt == none
        then { m with deletedAt := some now } else m
      .ok (ids.length, { db := { s.db with messages := msgs }, log := log2 })

/-- The rowid SQLite assigns to a newly inserted label
(`cursor.lastrowid`): one more than the largest existing id. -/
def newLabelId (db : Db) : Nat :=
  (db.labels.map Label.id).foldl max 0 + 1

/-- The label id `add_label` works with: the id of the first `labels`
row of that name, else the id of the freshly inserted row. -/
def resolveLabelId (db : Db) (name : String) : Nat :=
  match db.labels.find? fun l => l.name == name with
  | some l => l.id
  | none => newLabelId db

/-- One `INSERT OR IGNORE INTO message_labels` per snapshot id, in
order: a pair already present in the table is left alone. -/
def insertPairs (cur : List (Nat × Nat)) (lid : Nat) : List Nat → List (Nat × Nat)
  | [] => cur
  | mid :: rest =>
      insertPairs
        (if cur.contains (mid, lid) then cur else cur ++ [(mid, lid)])
        lid rest

/-- `MessageQuery.add_label(name)`: get or create the label, log a
`label_add` entry against the full id snapshot, then idempotently insert
the associations. Returns the snapshot length. -/
def MessageQuery.add_label (q : MessageQuery) (s : VaultState) (name : String) :
    Except VaultError (Nat × VaultState) :=
  if !q.writable then .error .readOnly
  else
    let ids := q.message_ids s.db
    if ids.isEmpty then .ok (0, s)
    else
      let labelId := resolveLabelId s.db name
      let labels2 :=
        match s.db.labels.find? fun l => l.name == name with
        | some _ => s.db.labels
        | none => s.db.labels ++ [⟨newLabelId s.db, name, "user"⟩]
      let log2 := ChangeLog.record s.log "label_add" ids
        (some { labelName := some name, labelId := some labelId }) none
      let pairs := insertPairs s.db.messageLabels labelId ids
      .ok (ids.length,
        { db := { s.db with labels := labels2, messageLabels := pairs }
          log := log2 })

/-- `MessageQuery.remove_label(name)`: resolve the label (missing name:
return 0, no log entry), select the snapshot ids that actually carry it,
log a `label_remove` entry against exactly those, then delete exactly
those associations. Returns the number removed. -/
def MessageQuery.remove_label (q : MessageQuery) (s : VaultState) (name : String) :
    Except VaultError (Nat × VaultState) :=
  if !q.writable then .error .readOnly
  else
    let ids := q.message_ids s.db
    if ids.isEmpty then .ok (0, s)
    else
      match s.db.labels.find? fun l => l.name == name with
      | none => .ok (0, s)
      | some l =>
        let affected := (s.db.messageLabels.filter
          fun ml => ml.2 == l.id && ids.contains ml.1).map Prod.fst
        if affected.isEmpty then .ok (0, s)
        else
          let log2 := ChangeLog.record s.log "label_remove" affected
            (some { labelName := some name, labelId := none })
            (some { labelName := none, labelId := some l.id })
          let pairs := s.db.messageLabels.filter
            fun ml => !(ml.2 == l.id && affected.contains ml.1)
          .ok (affected.length,
            { db := { s.db with messageLabels := pairs }, log := log2 })

/-- The keys of `_GROUP_CONFIGS`. -/
def groupFields : List String :=
  ["sender", "sender_name", "domain", "year", "month", "account", "label",
   "recipient"]

/-- Numeric value of a digit string (helper for date validity). -/
def digitsToNat (cs : List Char) : Nat :=
  cs.foldl (fun acc c => acc * 10 + (c.toNat - 48)) 0

/-- SQLite `strftime('%Y-%m', v)`: the year-month prefix for an
ISO-8601-dated value, NULL for a value SQLite cannot parse as a date. -/
def strftimeMonthKey (s : String) : Option String :=
  let cs := s.data
  if 10 ≤ cs.length then
    let y1 := cs.take 4
    let mo := (cs.drop 5).take 2
    let d := (cs.drop 8).take 2
    if y1.all Char.isDigit && mo.all Char.isDigit && d.all Char.isDigit &&
        cs.getD 4 ' ' == '-' && cs.getD 7 ' ' == '-' &&
        1 ≤ digitsToNat mo && digitsToNat mo ≤ 12 &&
        1 ≤ digitsToNat d && digitsToNat d ≤ 31 then
      some (String.mk (cs.take 7))
    else none
  else none

/-- SQLite `strftime('%Y', v)`: the year digits for an ISO-8601-dated
value, NULL otherwise. -/
def strftimeYear (s : String) : Option String :=
  (strftimeMonthKey s).map fun k => k.take 4

/-- The key values a message row contributes to `GROUP BY` under one
grouping field: each `_GROUP_CONFIGS` join row yields one key (possibly
NULL). An INNER JOIN that does not resolve yields no row at all. -/
def joinKeys (field : String) (db : Db) (m : Message) : List (Option String) :=
  if field == "sender" then
    (db.participants.filter fun p => some p.id == m.senderId).map
      fun p => some p.email
  else if field == "sender_name" then
    (db.participants.filter fun p => some p.id == m.senderId).map
      fun p => some (match p.displayName with
        | some d => d
        | none => p.email)
  else if field == "domain" then
    (db.participants.filter fun p => some p.id == m.senderId).map
      Participant.domain
  else if field == "year" then [strftimeYear m.sentAt]
  else if field == "month" then [strftimeMonthKey m.sentAt]
  else if field == "account" then
    (db.sources.filter fun s => s.id == m.sourceId).map
      fun s => some s.identifier
  else if field == "label" then
    (db.messageLabels.filter fun ml => ml.1 == m.id).flatMap
      fun ml => (db.labels.filter fun l => l.id == ml.2).map
        fun l => some l.name
  else if field == "recipient" then
    (db.messageRecipients.filter fun mr => mr.1 == m.id).flatMap
      fun mr => (db.participants.filter fun p => p.id == mr.2).map
        fun p => some p.email
  else []

/-- The joined row set of the grouping SELECT: every message satisfying
`_base_where`, paired with each group key its joins produce. -/
def joinedRows (base : MessageQuery) (field : String) (db : Db) :
    List (Message × Option String) :=
  (db.messages.filter (base.matchRow db)).flatMap
    fun m => (joinKeys field db m).map fun k => (m, k)

/-- One aggregated group row: displayed key (NULL collapses to `""`),
`COUNT(*)` and `COALESCE(SUM(m.size_estimate), 0)`. -/
structure Group where
  key : String
  count : Nat
  total_size : Int
deriving Repr, DecidableEq

/-- A message's contribution to `SUM(m.size_estimate)` (NULL
contributes nothing, so counts as zero). -/
def sizeOrZero (m : Message) : Int :=
  match m.sizeEstimate with
  | some n => n
  | none => 0

/-- The aggregate row for one raw group key. -/
def groupOfKey (rows : List (Message × Option String)) (k : Option String) :
    Group :=
  let sel := rows.filter fun r => r.2 == k
  { key :=
      match k with
      | some s => s
      | none => ""
    count := sel.length
    total_size := (sel.map fun r => sizeOrZero r.1).sum }

/-- The ORDER BY scalar of a group row for one of
`_GROUP_SORT_FIELDS`. -/
def Group.sortVal (g : Group) (f : String) : SqlVal :=
  if f == "key" then .text g.key
  else if f == "count" then .int g.count
  else .int g.total_size

/-- The group row comparison of the generated ORDER BY clause. -/
def groupLe (f : String) (desc : Bool) (a b : Group) : Bool :=
  if desc then SqlVal.le (b.sortVal f) (a.sortVal f)
  else SqlVal.le (a.sortVal f) (b.sortVal f)

/-- `GroupedQuery`: a grouping bound to a base query, a validated field
and a sort specification (default: count, descending). -/
structure GroupedQuery where
  base : MessageQuery
  field : String
  sortField : String
  sortDesc : Bool
deriving Repr, DecidableEq

/-- `MessageQuery.group_by(field)`: validates the field against
`_GROUP_CONFIGS` (unknown field: `ValueError`). -/
def MessageQuery.group_by (q : MessageQuery) (field : String) :
    Except VaultError GroupedQuery :=
  if field ∈ groupFields then .ok ⟨q, field, "count", true⟩
  else .error (.valueError field)

/-- `GroupedQuery.sort_by(field, desc)` (unknown field:
`ValueError`). -/
def GroupedQuery.sort_by (g : GroupedQuery) (field : String) (desc : Bool) :
    Except VaultError GroupedQuery :=
  if field ∈ ["key", "count", "total_size"] then
    .ok ⟨g.base, g.field, field, desc⟩
  else .error (.valueError field)

/-- `GroupedQuery.__iter__`: one `Group` per distinct raw key of the
joined row set, ordered by the sort specification. -/
def GroupedQuery.run (g : GroupedQuery) (db : Db) : List Group :=
  let rows := joinedRows g.base g.field db
  insertionSort (groupLe g.sortField g.sortDesc)
    (((rows.map Prod.snd).dedup).map (groupOfKey rows))

/-- `_drill_down(base, field, key)`: the filtered query reproducing one
group. `year` / `month` keys are re-parsed with Python `int()`, which
raises `ValueError` on a non-numeric key (e.g. the collapsed `""`). -/
def drillDown (base : MessageQuery) (field : String) (key : String) :
    Except VaultError MessageQuery :=
  if field == "sender" then
    .ok (base.filter { Kwargs.empty with sender := some key })
  else if field == "sender_name" then
    .ok (base.filter { Kwargs.empty with sender_like := some key })
  else if field == "domain" then
    .ok (base.filter { Kwargs.empty with domain := some key })
  else if field == "year" then
    match key.toNat? with
    | some y =>
        .ok (base.filter { Kwargs.empty with
          after := some (.str (key ++ "-01-01"))
          before := some (.str (toString (y + 1) ++ "-01-01")) })
    | none => .error (.valueError key)
  else if field == "month" then
    match key.split fun c => c == '-' with
    | [ys, ms] =>
        match ys.toNat?, ms.toNat? with
        | some y, some mo =>
            let nextMonth :=
              if mo == 12 then toString (y + 1) ++ "-01-01"
              else toString y ++ "-" ++ pad2 (mo + 1) ++ "-01"
            .ok (base.filter { Kwargs.empty with
              after := some (.str (key ++ "-01"))
              before := some (.str nextMonth) })
        | _, _ => .error (.valueError key)
    | _ => .error (.valueError key)
  else if field == "account" then
    .ok (base.filter { Kwargs.empty with account := some key })
  else if field == "label" then
    .ok (base.filter { Kwargs.empty with label := some key })
  else if field == "recipient" then
    .ok (base.filter { Kwargs.empty with recipient := some key })
  else .error (.valueError field)

/-! ### General list lemmas used by several claims -/

theorem filter_length_mono {A : Type} (l : List A) (p q : A → Bool)
    (h : ∀ a ∈ l, p a = true → q a = true) :
    (l.filter p).length ≤ (l.filter q).length := by
  induction l with
  | nil => simp
  | cons a t ih =>
    have ht : ∀ a ∈ t, p a = true → q a = true := by
      intro x hx
      exact h x (List.mem_cons_of_mem a hx)
    by_cases hp : p a = true
    · have hq := h a (List.mem_cons_self a t) hp
      simp [hp, hq]
      exact ih ht
    · have hp2 : p a = false := by
        revert hp
        cases p a <;> simp
      by_cases hq : q a = true
      · simp [hp2, hq]
        exact Nat.le_succ_of_le (ih ht)
      · have hq2 : q a = false := by
          revert hq
          cases q a <;> simp
        simp [hp2, hq2]
        exact ih ht

theorem any_filter {A : Type} (l : List A) (p g : A → Bool) :
    (l.filter p).any g = l.any fun a => p a && g a := by
  induction l with
  | nil => rfl
  | cons a t ih => by_cases h : p a <;> simp [h, ih]

theorem sum_map_split {A M : Type} [AddCommMonoid M]
    (l : List A) (p : A → Bool) (f : A → M) :
    ((l.filter p).map f).sum + ((l.filter fun a => !p a).map f).sum
      = (l.map f).sum := by
  induction l with
  | nil => simp
  | cons a t ih =>
    cases hpa : p a with
    | true =>
      rw [List.filter_cons_of_pos hpa, List.filter_cons_of_neg (by simp [hpa])]
      simp only [List.map_cons, List.sum_cons]
      rw [add_assoc, ih]
    | false =>
      rw [List.filter_cons_of_neg (by simp [hpa]),
        List.filter_cons_of_pos (by simp [hpa])]
      simp only [List.map_cons, List.sum_cons]
      rw [add_left_comm, ih]

theorem sum_partition {A K M : Type} [BEq K] [LawfulBEq K] [AddCommMonoid M] :
    ∀ (ks : List K) (l : List A) (key : A → K) (f : A → M),
      ks.Nodup → (∀ a ∈ l, key a ∈ ks) →
      (ks.map fun k => ((l.filter fun a => key a == k).map f).sum).sum
        = (l.map f).sum := by
  intro ks
  induction ks with
  | nil =>
    intro l key f _ hall
    cases l with
    | nil => simp
    | cons a t => exact absurd (hall a (by simp)) (by simp)
  | cons k ks ih =>
    intro l key f hnd hall
    have hk : k ∉ ks := (List.nodup_cons.mp hnd).1
    have hnd2 : ks.Nodup := (List.nodup_cons.mp hnd).2
    simp only [List.map_cons, List.sum_cons]
    have hrest :
        (ks.map fun k2 => ((l.filter fun a => key a == k2).map f).sum).sum
          = (ks.map fun k2 =>
              (((l.filter fun a => !(key a == k)).filter
                fun a => key a == k2).map f).sum).sum := by
      apply congrArg
      apply List.map_congr_left
      intro k2 hk2
      have hne : k2 ≠ k := by
        intro he
        exact hk (he ▸ hk2)
      have : (l.filter fun a => key a == k2)
          = ((l.filter fun a => !(key a == k)).filter
              fun a => key a == k2) := by
        rw [List.filter_filter]
        apply List.filter_congr
        intro a _
        by_cases hak : key a = k2
        · simp [hak, hne, beq_iff_eq]
        · simp [hak, beq_iff_eq]
      rw [this]
    rw [hrest]
    rw [ih (l.filter fun a => !(key a == k)) key f hnd2 ?hall2]
    · exact sum_map_split l (fun a => key a == k) f
    · intro a ha
      have hmem := List.mem_filter.mp ha
      have := hall a hmem.1
      simp only [List.mem_cons] at this
      rcases this with he | hm
      · exfalso
        have hb := hmem.2
        simp [he, beq_iff_eq] at hb
      · exact hm

theorem sum_map_ones {A : Type} (l : List A) :
    (l.map fun _ => (1 : Nat)).sum = l.length := by
  induction l with
  | nil => rfl
  | cons a t ih =>
    simp only [List.map_cons, List.sum_cons, ih, List.length_cons]
    omega

theorem sum_partition_length {A K : Type} [BEq K] [LawfulBEq K]
    (ks : List K) (l : List A) (key : A → K)
    (hnd : ks.Nodup) (hall : ∀ a ∈ l, key a ∈ ks) :
    (ks.map fun k => (l.filter fun a => key a == k).length).sum = l.length := by
  have h := sum_partition ks l key (fun _ => (1 : Nat)) hnd hall
  rw [sum_map_ones] at h
  rw [← h]
  apply congrArg
  apply List.map_congr_left
  intro k _
  rw [sum_map_ones]

theorem flatMap_pair_length {A : Type} (l : List A)
    (g : A → List (Option String))
    (hg : ∀ a ∈ l, (g a).length = 1) :
    (l.flatMap fun a => (g a).map fun k => (a, k)).length = l.length := by
  induction l with
  | nil => rfl
  | cons a t ih =>
    simp only [List.flatMap_cons, List.length_append, List.length_map]
    rw [hg a (by simp), ih fun x hx => hg x (List.mem_cons_of_mem a hx)]
    simp [Nat.add_comm]

theorem flatMap_pair_sum {A M : Type} [AddCommMonoid M] (l : List A)
    (g : A → List (Option String)) (f : A → M)
    (hg : ∀ a ∈ l, (g a).length = 1) :
    ((l.flatMap fun a => (g a).map fun k => (a, k)).map fun r => f r.1).sum
      = (l.map f).sum := by
  induction l with
  | nil => rfl
  | cons a t ih =>
    obtain ⟨k0, hk0⟩ := List.length_eq_one.mp (hg a (by simp))
    simp only [List.flatMap_cons, List.map_append, List.sum_append, hk0]
    simp only [List.map_cons, List.map_nil, List.sum_cons, List.sum_nil]
    rw [ih fun x hx => hg x (List.mem_cons_of_mem a hx)]
    simp

theorem flatMap_filter_key_length {A : Type} (l : List A)
    (g : A → List (Option String))
    (hg : ∀ a ∈ l, ∃ kk, g a = [some kk]) (K : String) :
    ((l.flatMap fun a => (g a).map fun k => (a, k)).filter
        fun r => r.2 == some K).length
      = (l.filter fun a => g a == [some K]).length := by
  induction l with
  | nil => rfl
  | cons a t ih =>
    obtain ⟨kk, hkk⟩ := hg a (by simp)
    have iht := ih fun x hx => hg x (List.mem_cons_of_mem a hx)
    simp only [List.flatMap_cons, List.filter_append, List.length_append, hkk,
      List.map_cons, List.map_nil, List.filter_cons, List.filter_nil]
    by_cases hk : kk = K
    · subst hk
      simp [iht, Nat.add_comm]
    · simp [hk, iht, Ne.symm hk]

theorem insertSorted_perm {A : Type} (le : A → A → Bool) (a : A) :
    ∀ l : List A, List.Perm (insertSorted le a l) (a :: l) := by
  intro l
  induction l with
  | nil => exact List.Perm.refl _
  | cons b t ih =>
    unfold insertSorted
    by_cases h : le a b
    · rw [if_pos h]
    · rw [if_neg h]
      exact List.Perm.trans (List.Perm.cons b ih) (List.Perm.swap a b t)

theorem insertionSort_perm {A : Type} (le : A → A → Bool) :
    ∀ l : List A, List.Perm (insertionSort le l) l := by
  intro l
  induction l with
  | nil => exact List.Perm.refl _
  | cons a t ih =>
    exact List.Perm.trans (insertSorted_perm le a (insertionSort le t))
      (List.Perm.cons a ih)

theorem length_insertionSort {A : Type} (le : A → A → Bool) (l : List A) :
    (insertionSort le l).length = l.length :=
  (insertionSort_perm le l).length_eq

theorem mem_insertionSort {A : Type} (le : A → A → Bool) (l : List A) (a : A) :
    a ∈ insertionSort le l ↔ a ∈ l :=
  (insertionSort_perm le l).mem_iff

/-! ### Lemmas about the query builder -/

theorem matchRow_filter_imp (q : MessageQuery) (k : Kwargs) (db : Db)
    (m : Message) (hflip : k.flipsInclude = false)
    (h : (q.filter k).matchRow db m = true) : q.matchRow db m = true := by
  simp only [MessageQuery.matchRow, MessageQuery.filter, MessageQuery.baseWhere,
    hflip, Bool.or_false, List.all_append, Bool.and_eq_true] at h ⊢
  exact ⟨h.1, h.2.1⟩

theorem mem_optList {A B : Type} (o : Option A) (c : A → B) (x : B) :
    x ∈ (o.map c).toList ↔ ∃ v, o = some v ∧ x = c v := by
  cases o <;> simp [eq_comm]

theorem deletedNull_mem_newFilters (k : Kwargs) :
    Filter.deletedNull ∈ k.newFilters ↔ k.is_deleted = some (some false) := by
  rcases hd : k.is_deleted with _ | ob
  · simp [Kwargs.newFilters, mem_optList, hd]
  · rcases ob with _ | b
    · simp [Kwargs.newFilters, mem_optList, hd]
    · cases b <;> simp [Kwargs.newFilters, mem_optList, hd]

theorem deletedNotNull_mem_newFilters (k : Kwargs) :
    Filter.deletedNotNull ∈ k.newFilters ↔ k.is_deleted = some (some true) := by
  rcases hd : k.is_deleted with _ | ob
  · simp [Kwargs.newFilters, mem_optList, hd]
  · rcases ob with _ | b
    · simp [Kwargs.newFilters, mem_optList, hd]
    · cases b <;> simp [Kwargs.newFilters, mem_optList, hd]

/-- The base query `Vault.messages` / the test fixtures construct:
no filters, default sort, no pagination, alive-only, read-only. -/
def defaultQuery : MessageQuery := {}

/-- A writable base query (as built by a vault opened with
`writable=True`). -/
def writableQuery : MessageQuery := { writable := true }

/-- `filter(is_deleted=True)`. -/
def kwDeletedTrue : Kwargs := { Kwargs.empty with is_deleted := some (some true) }

/-- `filter(is_deleted=False)`. -/
def kwDeletedFalse : Kwargs := { Kwargs.empty with is_deleted := some (some false) }

/-- `filter(is_deleted=None)`. -/
def kwDeletedNone : Kwargs := { Kwargs.empty with is_deleted := some none }

/-! ### Shared concrete data (the conftest seed scenario and smaller
stores for witnesses and counterexamples) -/

/-- The participants of the test fixture. -/
def sampleParticipants : List Participant :=
  [⟨1, "alice@example.com", some "Alice Smith", some "example.com"⟩,
   ⟨2, "bob@example.com", some "Bob Jones", some "example.com"⟩,
   ⟨3, "noreply@service.com", none, some "service.com"⟩,
   ⟨4, "admin@example.com", some "Admin", some "example.com"⟩,
   ⟨5, "test@gmail.com", some "Test User", some "gmail.com"⟩]

/-- The ten seeded messages (id 10 pre-deleted). -/
def sampleMessages : List Message :=
  [⟨1, 1, some 1, "2023-01-15T09:00:00Z", some "Hello from Alice", false, some 1500, none⟩,
   ⟨2, 1, some 2, "2023-03-20T14:30:00Z", some "Project Update", false, some 3200, none⟩,
   ⟨3, 1, some 3, "2023-06-10T08:00:00Z", some "Notification", false, some 800, none⟩,
   ⟨4, 1, some 1, "2023-09-01T16:00:00Z", some "Q3 Report", true, some 52000, none⟩,
   ⟨5, 2, some 2, "2023-12-25T00:00:00Z", some "Holiday Greetings", false, some 1200, none⟩,
   ⟨6, 1, some 1, "2024-01-10T10:00:00Z", some "New Year Plans", false, some 2100, none⟩,
   ⟨7, 1, some 4, "2024-03-15T11:00:00Z", some "Weekly Summary", false, some 1800, none⟩,
   ⟨8, 2, some 5, "2024-06-01T09:30:00Z", some "Meeting Notes", false, some 4500, none⟩,
   ⟨9, 1, some 1, "2024-06-15T10:00:00Z", some "Re: Project Discussion", false, some 2800, none⟩,
   ⟨10, 1, some 3, "2024-09-01T08:00:00Z", some "Deleted message", false, some 900,
     some "2024-09-02T08:00:00Z"⟩]

/-- The conftest seed database. -/
def sampleDb : Db :=
  ⟨sampleMessages, sampleParticipants,
   [⟨1, "test@gmail.com"⟩, ⟨2, "other@gmail.com"⟩],
   [⟨1, "INBOX", "system"⟩, ⟨2, "SENT", "system"⟩, ⟨3, "IMPORTANT", "system"⟩],
   [(1, 1), (2, 1), (4, 3), (9, 3)],
   [(1, 2), (2, 1)]⟩

/-- A one-message store whose only message is already soft-deleted. -/
def deletedOnlyDb : Db :=
  ⟨[⟨1, 1, some 1, "2024-01-01T00:00:00Z", some "x", false, some 10,
      some "2024-02-01T00:00:00Z"⟩],
   [⟨1, "a@x.com", some "Alice Smith", some "x.com"⟩],
   [⟨1, "acct@x.com"⟩], [⟨1, "L", "user"⟩], [], []⟩

/-! ### C1 -/

/-- C1 as frozen is false: `filter(is_deleted=None)` sets
`include_deleted`, dropping the implicit alive-only clause, so on a
store whose only message is soft-deleted the filtered count is 1 while
the base count is 0. -/
theorem C1_counterexample :
    ¬((defaultQuery.filter kwDeletedNone).count deletedOnlyDb ≤
        defaultQuery.count deletedOnlyDb) := by decide

/-- C1 (amended): adding a filter never increases `count()` provided
the request does not pass `is_deleted=True` or `is_deleted=None` (the
two branches that set `include_deleted` and so can widen the query);
every other supported keyword, including `is_deleted=False`, only
narrows. -/
theorem C1_filter_narrows (q : MessageQuery) (k : Kwargs) (db : Db)
    (hflip : k.flipsInclude = false) :
    (q.filter k).count db ≤ q.count db := by
  unfold MessageQuery.count
  exact filter_length_mono _ _ _
    fun m _ hm => matchRow_filter_imp q k db m hflip hm

/-- Witness for C1: the amended bound at a concrete query, filter and
store. -/
theorem C1_filter_narrows_witness :
    Kwargs.flipsInclude { Kwargs.empty with sender := some "alice@example.com" }
        = false ∧
    (defaultQuery.filter
        { Kwargs.empty with sender := some "alice@example.com" }).count sampleDb ≤
      defaultQuery.count sampleDb :=
  ⟨by decide,
   C1_filter_narrows defaultQuery
     { Kwargs.empty with sender := some "alice@example.com" } sampleDb
     (by decide)⟩

/-! ### C2 -/

/-- C2: in this purely functional embedding a builder call cannot touch
the receiver, which is the claim's mutation half; the checkable content
is that each of `filter`, `sort_by`, `limit` and `offset` yields a new
`MessageQuery` whose untouched components (predicates, sort, pagination,
`include_deleted`, writability) are exactly the receiver's, so the
receiver keeps producing the same results afterwards. -/
theorem C2_builders_no_mutation (q q2 : MessageQuery) (k : Kwargs)
    (f : String) (d : Bool) (n n2 : Int)
    (hs : q.sort_by f d = Except.ok q2) :
    ((q.filter k).sort = q.sort ∧ (q.filter k).limitVal = q.limitVal ∧
      (q.filter k).offsetVal = q.offsetVal ∧
      (q.filter k).writable = q.writable ∧
      (q.filter k).filters = q.filters ++ k.newFilters) ∧
    (q2.filters = q.filters ∧ q2.limitVal = q.limitVal ∧
      q2.offsetVal = q.offsetVal ∧ q2.includeDeleted = q.includeDeleted ∧
      q2.writable = q.writable ∧ q2.sort = some (f, d)) ∧
    ((q.limit n).filters = q.filters ∧ (q.limit n).sort = q.sort ∧
      (q.limit n).offsetVal = q.offsetVal ∧
      (q.limit n).includeDeleted = q.includeDeleted ∧
      (q.limit n).writable = q.writable ∧ (q.limit n).limitVal = some n) ∧
    ((q.offset n2).filters = q.filters ∧ (q.offset n2).sort = q.sort ∧
      (q.offset n2).limitVal = q.limitVal ∧
      (q.offset n2).includeDeleted = q.includeDeleted ∧
      (q.offset n2).writable = q.writable ∧
      (q.offset n2).offsetVal = some n2) := by
  have hq2 : q2 = { q with sort := some (f, d) } := by
    unfold MessageQuery.sort_by at hs
    by_cases hf : f ∈ sortFields
    · rw [if_pos hf] at hs
      injection hs with h
      exact h.symm
    · rw [if_neg hf] at hs
      exact absurd hs (by simp)
  subst hq2
  exact ⟨⟨rfl, rfl, rfl, rfl, rfl⟩, ⟨rfl, rfl, rfl, rfl, rfl, rfl⟩,
    ⟨rfl, rfl, rfl, rfl, rfl, rfl⟩, ⟨rfl, rfl, rfl, rfl, rfl, rfl⟩⟩

/-- Witness for C2 at concrete inputs. -/
theorem C2_builders_no_mutation_witness :
    (defaultQuery.filter kwDeletedTrue).writable = defaultQuery.writable :=
  (C2_builders_no_mutation defaultQuery
    { defaultQuery with sort := some ("date", true) } kwDeletedTrue
    "date" true 3 5 (by rfl)).1.2.2.2.1

/-! ### C8 -/

/-- C8: on a non-writable query each mutation fails immediately with the
read-only error; since the result carries no successor state, the store
and change log are untouched and the outcome does not depend on the
state at all. -/
theorem C8_readonly_rejected (q : MessageQuery) (s : VaultState)
    (now name1 name2 : String) (h : q.writable = false) :
    q.delete s now = .error .readOnly ∧
    q.add_label s name1 = .error .readOnly ∧
    q.remove_label s name2 = .error .readOnly := by
  unfold MessageQuery.delete MessageQuery.add_label MessageQuery.remove_label
  simp [h]

/-- Witness for C8: the read-only default query on the seed store. -/
theorem C8_readonly_rejected_witness :
    defaultQuery.delete ⟨sampleDb, []⟩ "2025-01-01T00:00:00Z"
      = .error .readOnly :=
  (C8_readonly_rejected defaultQuery ⟨sampleDb, []⟩ "2025-01-01T00:00:00Z"
    "A" "B" rfl).1

/-! ### C9 -/

/-- C9 as frozen is false in its "never combines" part: chaining
`filter(is_deleted=False)` and then `filter(is_deleted=True)` yields a
WHERE list containing both `deleted_at IS NULL` and
`deleted_at IS NOT NULL`. -/
theorem C9_counterexample :
    Filter.deletedNull ∈
        ((defaultQuery.filter kwDeletedFalse).filter kwDeletedTrue).baseWhere ∧
    Filter.deletedNotNull ∈
        ((defaultQuery.filter kwDeletedFalse).filter kwDeletedTrue).baseWhere := by
  decide

/-- The invariant maintained by `filter` as long as the caller never
passes `is_deleted=False`: an explicit `deleted_at IS NOT NULL` clause
is only present with `include_deleted` set, and no explicit
`deleted_at IS NULL` clause is present. -/
def DeletedClausesInv (q : MessageQuery) : Prop :=
  (Filter.deletedNotNull ∈ q.filters → q.includeDeleted = true) ∧
  Filter.deletedNull ∉ q.filters

/-- C9 (amended): the default query excludes soft-deleted rows;
`is_deleted=True` selects only deleted rows, `is_deleted=False` only
alive ones, `is_deleted=None` applies no deleted-filter; `True`/`None`
set `include_deleted` so the implicit exclusion clause is not also
added; and along any `filter` chain that never passes
`is_deleted=False` the generated WHERE list never contains both
`deleted_at IS NULL` and `deleted_at IS NOT NULL` (the counterexample
shows both can co-occur once `False` and then `True` are passed
explicitly). -/
theorem C9_tristate (db : Db) (m : Message) (q : MessageQuery) (k : Kwargs) :
    (defaultQuery.matchRow db m = (m.deletedAt == none)) ∧
    ((defaultQuery.filter kwDeletedTrue).matchRow db m
        = !(m.deletedAt == none)) ∧
    ((defaultQuery.filter kwDeletedFalse).matchRow db m
        = (m.deletedAt == none)) ∧
    ((defaultQuery.filter kwDeletedNone).matchRow db m = true) ∧
    (k.is_deleted = some (some true) ∨ k.is_deleted = some none →
      (q.filter k).includeDeleted = true) ∧
    (DeletedClausesInv q → k.is_deleted ≠ some (some false) →
      DeletedClausesInv (q.filter k)) ∧
    (DeletedClausesInv q →
      ¬(Filter.deletedNull ∈ q.baseWhere ∧
        Filter.deletedNotNull ∈ q.baseWhere)) ∧
    DeletedClausesInv defaultQuery := by
  refine ⟨?_, ?_, ?_, ?_, ?_, ?_, ?_, ?_⟩
  · simp [MessageQuery.matchRow, MessageQuery.baseWhere, defaultQuery,
      Filter.eval]
  · simp [MessageQuery.matchRow, MessageQuery.baseWhere, MessageQuery.filter,
      defaultQuery, kwDeletedTrue, Kwargs.newFilters, Kwargs.flipsInclude,
      Kwargs.empty, Filter.eval]
  · simp [MessageQuery.matchRow, MessageQuery.baseWhere, MessageQuery.filter,
      defaultQuery, kwDeletedFalse, Kwargs.newFilters, Kwargs.flipsInclude,
      Kwargs.empty, Filter.eval, Bool.and_self]
  · simp [MessageQuery.matchRow, MessageQuery.baseWhere, MessageQuery.filter,
      defaultQuery, kwDeletedNone, Kwargs.newFilters, Kwargs.flipsInclude,
      Kwargs.empty]
  · intro hk
    simp only [MessageQuery.filter]
    rcases hk with hk | hk <;>
      simp [Kwargs.flipsInclude, hk]
  · intro hinv hk
    constructor
    · intro hmem
      simp only [MessageQuery.filter, List.mem_append] at hmem ⊢
      rcases hmem with hmem | hmem
      · simp [hinv.1 hmem]
      · have := (deletedNotNull_mem_newFilters k).mp hmem
        simp [Kwargs.flipsInclude, this]
    · intro hmem
      simp only [MessageQuery.filter, List.mem_append] at hmem
      rcases hmem with hmem | hmem
      · exact hinv.2 hmem
      · exact hk ((deletedNull_mem_newFilters k).mp hmem)
  · intro hinv hboth
    have hnn : Filter.deletedNotNull ∈ q.filters := by
      have := hboth.2
      simp only [MessageQuery.baseWhere, List.mem_append] at this
      rcases this with hh | hh
      · by_cases hi : q.includeDeleted <;> simp [hi] at hh
      · exact hh
    have hincl := hinv.1 hnn
    have := hboth.1
    simp only [MessageQuery.baseWhere, hincl, List.mem_append] at this
    simp at this
    exact hinv.2 this
  · exact ⟨fun h => absurd h (by simp [defaultQuery]), by simp [defaultQuery]⟩

/-- Witness for C9: the flag flip and invariant at concrete inputs. -/
theorem C9_tristate_witness :
    (defaultQuery.filter kwDeletedNone).includeDeleted = true :=
  (C9_tristate sampleDb
    ⟨1, 1, some 1, "2024-01-01T00:00:00Z", none, false, none, none⟩
    defaultQuery kwDeletedNone).2.2.2.2.1 (Or.inr rfl)

/-! ### C10 -/

/-- None of the fifteen recognized filter keywords is present. -/
def Kwargs.recognizedNone (k : Kwargs) : Prop :=
  k.sender = none ∧ k.sender_like = none ∧ k.recipient = none ∧
  k.recipient_like = none ∧ k.domain = none ∧ k.label = none ∧
  k.account = none ∧ k.before = none ∧ k.after = none ∧
  k.min_size = none ∧ k.max_size = none ∧ k.has_attachments = none ∧
  k.subject_like = none ∧ k.is_deleted = none

/-- C10: `filter` inspects only the recognized keys, so a call whose
keyword set contains none of them never raises and returns a query
equal to the receiver (same predicates, sort, pagination and
`include_deleted`), hence matching exactly the same messages. -/
theorem C10_unrecognized_ignored (q : MessageQuery) (k : Kwargs)
    (h : k.recognizedNone) : q.filter k = q := by
  obtain ⟨h1, h2, h3, h4, h5, h6, h7, h8, h9, h10, h11, h12, h13, h14⟩ := h
  simp [MessageQuery.filter, Kwargs.newFilters, Kwargs.flipsInclude,
    h1, h2, h3, h4, h5, h6, h7, h8, h9, h10, h11, h12, h13, h14]

/-- Witness for C10: a keyword set holding only an unknown key. -/
theorem C10_unrecognized_ignored_witness :
    defaultQuery.filter { Kwargs.empty with unrecognized := ["frobnicate"] }
      = defaultQuery :=
  C10_unrecognized_ignored defaultQuery
    { Kwargs.empty with unrecognized := ["frobnicate"] }
    ⟨rfl, rfl, rfl, rfl, rfl, rfl, rfl, rfl, rfl, rfl, rfl, rfl, rfl, rfl⟩

/-! ### Lemmas about the mutation primitives -/

theorem contains_true_mem {A : Type} [BEq A] [LawfulBEq A]
    {l : List A} {a : A} (h : l.contains a = true) : a ∈ l := by
  have h2 : l.elem a = true := h
  exact List.elem_iff.mp h2

theorem ne_true_of_eq_false {b : Bool} (h : b = false) : ¬(b = true) := by
  rw [h]
  simp

theorem contains_false_not_mem {A : Type} [BEq A] [LawfulBEq A]
    {l : List A} {a : A} (h : l.contains a = false) : a ∉ l := by
  intro hm
  have h2 : l.contains a = true := List.elem_iff.mpr hm
  rw [h2] at h
  exact Bool.noConfusion h

theorem insertPairs_mem (lid : Nat) :
    ∀ (ids : List Nat) (cur : List (Nat × Nat)) (p : Nat × Nat),
      p ∈ insertPairs cur lid ids ↔ p ∈ cur ∨ (p.1 ∈ ids ∧ p.2 = lid) := by
  intro ids
  induction ids with
  | nil =>
    intro cur p
    simp [insertPairs]
  | cons mid rest ih =>
    intro cur p
    unfold insertPairs
    cases hc : cur.contains (mid, lid) with
    | true =>
      rw [if_pos rfl, ih]
      have hmem : (mid, lid) ∈ cur := contains_true_mem hc
      constructor
      · rintro (h | h)
        · exact Or.inl h
        · exact Or.inr ⟨List.mem_cons_of_mem mid h.1, h.2⟩
      · rintro (h | ⟨h1, h2⟩)
        · exact Or.inl h
        · rcases List.mem_cons.mp h1 with he | he
          · refine Or.inl ?_
            have : p = (mid, lid) := by
              cases p
              simp_all
            exact this ▸ hmem
          · exact Or.inr ⟨he, h2⟩
    | false =>
      rw [if_neg (by simp), ih]
      simp only [List.mem_append, List.mem_cons, List.not_mem_nil, or_false]
      constructor
      · rintro ((h | h) | h)
        · exact Or.inl h
        · exact Or.inr ⟨Or.inl (by rw [h]), by rw [h]⟩
        · exact Or.inr ⟨Or.inr h.1, h.2⟩
      · rintro (h | ⟨he | he, h2⟩)
        · exact Or.inl (Or.inl h)
        · refine Or.inl (Or.inr ?_)
          cases p
          simp_all
        · exact Or.inr ⟨he, h2⟩

theorem insertPairs_count_mem (lid : Nat) :
    ∀ (ids : List Nat) (cur : List (Nat × Nat)) (mid : Nat),
      (mid, lid) ∈ cur →
      (insertPairs cur lid ids).count (mid, lid) = cur.count (mid, lid) := by
  intro ids
  induction ids with
  | nil =>
    intro cur mid _
    rfl
  | cons m0 rest ih =>
    intro cur mid hmem
    unfold insertPairs
    cases hc : cur.contains (m0, lid) with
    | true =>
      rw [if_pos rfl]
      exact ih cur mid hmem
    | false =>
      rw [if_neg (by simp)]
      have hnm : (m0, lid) ∉ cur := contains_false_not_mem hc
      have hne : ((mid, lid) : Nat × Nat) ≠ (m0, lid) := by
        intro he
        refine hnm ?_
        rw [← he]
        exact hmem
      rw [ih (cur ++ [(m0, lid)]) mid (List.mem_append_left _ hmem)]
      rw [List.count_append]
      simp [List.count_cons, hne]

theorem insertPairs_count_new (lid : Nat) :
    ∀ (ids : List Nat) (cur : List (Nat × Nat)) (mid : Nat),
      (mid, lid) ∉ cur → mid ∈ ids →
      (insertPairs cur lid ids).count (mid, lid) = 1 := by
  intro ids
  induction ids with
  | nil =>
    intro cur mid _ hin
    exact absurd hin (by simp)
  | cons m0 rest ih =>
    intro cur mid hnot hin
    unfold insertPairs
    by_cases hm : m0 = mid
    · subst hm
      have hc : cur.contains (m0, lid) = false := by
        cases hcc : cur.contains (m0, lid) with
        | true => exact absurd (contains_true_mem hcc) hnot
        | false => rfl
      rw [if_neg (ne_true_of_eq_false hc)]
      rw [insertPairs_count_mem lid rest _ m0 (List.mem_append_right _ (by simp))]
      rw [List.count_append, List.count_eq_zero.mpr hnot]
      simp [List.count_cons]
    · have hin2 : mid ∈ rest := by
        rcases List.mem_cons.mp hin with he | he
        · exact absurd he.symm hm
        · exact he
      cases hc : cur.contains (m0, lid) with
      | true =>
        rw [if_pos rfl]
        exact ih cur mid hnot hin2
      | false =>
        rw [if_neg (by simp)]
        refine ih (cur ++ [(m0, lid)]) mid ?_ hin2
        intro hmem
        rcases List.mem_append.mp hmem with h | h
        · exact hnot h
        · simp at h
          exact hm h.symm

theorem forall2_map_self {A : Type} (l : List A) (f : A → A)
    (R : A → A → Prop) (h : ∀ a ∈ l, R a (f a)) :
    List.Forall₂ R l (l.map f) := by
  induction l with
  | nil => exact List.Forall₂.nil
  | cons a t ih =>
    exact List.Forall₂.cons (h a (by simp))
      (ih fun x hx => h x (List.mem_cons_of_mem a hx))

/-! ### C7 -/

/-- C7 as frozen is false in its return-value part: on a writable query
matching one already-deleted row (`is_deleted=True` on a store whose
only message is soft-deleted), `delete()` returns 1 and writes a log
entry although it sets the soft-delete marker on zero rows (the store
comes back unchanged), so the return value is the snapshot size, not
the number of rows affected. -/
theorem C7_counterexample :
    ((writableQuery.filter kwDeletedTrue).delete ⟨deletedOnlyDb, []⟩
        "2025-01-01T00:00:00Z"
      = Except.ok (1, ⟨deletedOnlyDb, [⟨"delete", [1], none, none, false⟩]⟩)) ∧
    (1 : Nat) ≠ 0 :=
  ⟨rfl, by decide⟩

/-- C7 (amended): on a writable query, `delete()` with an empty match
is a pure no-op returning 0 (no store mutation, no log entry);
otherwise it logs one `delete` entry against the snapshotted ids,
stamps `deleted_at := now` on exactly those snapshotted rows that are
still alive, leaves every other row and table untouched, and returns
the number of snapshotted ids — which can exceed the number of rows
actually marked when the query matches already-deleted rows. -/
theorem C7_delete_semantics (q : MessageQuery) (s : VaultState)
    (now : String) (hw : q.writable = true) :
    (q.message_ids s.db = [] → q.delete s now = .ok (0, s)) ∧
    (q.message_ids s.db ≠ [] → ∃ s2,
      q.delete s now = .ok ((q.message_ids s.db).length, s2) ∧
      s2.log = s.log ++ [⟨"delete", q.message_ids s.db, none, none, false⟩] ∧
      List.Forall₂ (fun m m2 =>
          if (q.message_ids s.db).contains m.id && m.deletedAt == none
          then m2 = { m with deletedAt := some now } else m2 = m)
        s.db.messages s2.db.messages ∧
      s2.db.participants = s.db.participants ∧
      s2.db.sources = s.db.sources ∧
      s2.db.labels = s.db.labels ∧
      s2.db.messageLabels = s.db.messageLabels ∧
      s2.db.messageRecipients = s.db.messageRecipients) := by
  constructor
  · intro hids
    unfold MessageQuery.delete
    rw [hw]
    simp [hids]
  · intro hids
    unfold MessageQuery.delete
    rw [hw]
    have hemp : (q.message_ids s.db).isEmpty = false := by
      cases hca : q.message_ids s.db with
      | nil => exact absurd hca hids
      | cons a t => rfl
    simp only [Bool.not_true, Bool.false_eq_true, if_false, hemp]
    refine ⟨_, rfl, rfl, ?_, rfl, rfl, rfl, rfl, rfl⟩
    exact forall2_map_self _ _ _ fun m _ => by
      by_cases hcond :
          ((q.message_ids s.db).contains m.id && m.deletedAt == none) = true
      · simp only [hcond, if_true, if_pos]
      · have hcond2 :
            ((q.message_ids s.db).contains m.id && m.deletedAt == none)
              = false := by
          cases hcc : ((q.message_ids s.db).contains m.id
              && m.deletedAt == none) with
          | true => exact absurd hcc hcond
          | false => rfl
        simp only [hcond2, Bool.false_eq_true, if_false]

/-- Witness for C7: a writable query matching nothing is a no-op
returning 0. -/
theorem C7_delete_semantics_witness :
    (writableQuery.filter
        { Kwargs.empty with sender := some "nobody@nowhere.com" }).delete
      ⟨sampleDb, []⟩ "2025-01-01T00:00:00Z" = .ok (0, ⟨sampleDb, []⟩) :=
  (C7_delete_semantics
    (writableQuery.filter
      { Kwargs.empty with sender := some "nobody@nowhere.com" })
    ⟨sampleDb, []⟩ "2025-01-01T00:00:00Z" rfl).1 (by decide)

/-! ### C6 -/

/-- C6: on a writable query with a non-empty match, `add_label(name)`
logs one `label_add` entry recording every matched id (not only those
not yet carrying the label), returns the number of matched ids (not the
number of newly created associations), inserts the missing associations,
and treats an existing association as an idempotent no-op (its
multiplicity in the association table is unchanged; a missing one ends
up with multiplicity exactly 1). -/
theorem C6_add_label_semantics (q : MessageQuery) (s : VaultState)
    (name : String) (hw : q.writable = true)
    (hne : q.message_ids s.db ≠ []) :
    ∃ s2, q.add_label s name = .ok ((q.message_ids s.db).length, s2) ∧
      s2.log = s.log ++ [⟨"label_add", q.message_ids s.db,
        some ⟨some name, some (resolveLabelId s.db name)⟩, none, false⟩] ∧
      (∀ p2, p2 ∈ s2.db.messageLabels ↔ p2 ∈ s.db.messageLabels ∨
        (p2.1 ∈ q.message_ids s.db ∧ p2.2 = resolveLabelId s.db name)) ∧
      (∀ mid, mid ∈ q.message_ids s.db →
        (mid, resolveLabelId s.db name) ∈ s.db.messageLabels →
        s2.db.messageLabels.count (mid, resolveLabelId s.db name)
          = s.db.messageLabels.count (mid, resolveLabelId s.db name)) ∧
      (∀ mid, mid ∈ q.message_ids s.db →
        (mid, resolveLabelId s.db name) ∉ s.db.messageLabels →
        s2.db.messageLabels.count (mid, resolveLabelId s.db name) = 1) ∧
      s2.db.messages = s.db.messages := by
  unfold MessageQuery.add_label
  rw [hw]
  have hemp : (q.message_ids s.db).isEmpty = false := by
    cases hca : q.message_ids s.db with
    | nil => exact absurd hca hne
    | cons a t => rfl
  simp only [Bool.not_true, Bool.false_eq_true, if_false, hemp]
  refine ⟨_, rfl, rfl, ?_, ?_, ?_, rfl⟩
  · intro p2
    exact insertPairs_mem (resolveLabelId s.db name) (q.message_ids s.db)
      s.db.messageLabels p2
  · intro mid _ hmem
    exact insertPairs_count_mem (resolveLabelId s.db name)
      (q.message_ids s.db) s.db.messageLabels mid hmem
  · intro mid hin hnot
    exact insertPairs_count_new (resolveLabelId s.db name)
      (q.message_ids s.db) s.db.messageLabels mid hnot hin

/-- Witness for C6: adding `IMPORTANT` to Alice's four alive messages;
ids 4 and 9 already carry it, yet all four matched ids are processed. -/
theorem C6_add_label_semantics_witness :
    ∃ s2, (writableQuery.filter
        { Kwargs.empty with sender := some "alice@example.com" }).add_label
        ⟨sampleDb, []⟩ "IMPORTANT" = .ok (4, s2) :=
  match C6_add_label_semantics
    (writableQuery.filter
      { Kwargs.empty with sender := some "alice@example.com" })
    ⟨sampleDb, []⟩ "IMPORTANT" rfl (by decide) with
  | ⟨s2, h1, _⟩ => ⟨s2, by rw [h1]; rfl⟩

/-! ### C5 -/

/-- A store with one alive matched message, an existing label `L`, and
no label associations at all. -/
def labelNoCarrierDb : Db :=
  ⟨[⟨1, 1, some 1, "2024-01-01T00:00:00Z", some "x", false, some 10, none⟩],
   [⟨1, "a@x.com", some "Alice", some "x.com"⟩],
   [⟨1, "acct@x.com"⟩], [⟨1, "L", "user"⟩], [], []⟩

/-- C5 as frozen is false in its "otherwise it logs" part: when the
named label exists but no matched id carries it, `remove_label` returns
0 and writes no change-log entry (the state comes back identical),
whereas the claim requires a log entry whenever the label exists. -/
theorem C5_counterexample :
    ((labelNoCarrierDb.labels.find? fun l => l.name == "L")
        = some ⟨1, "L", "user"⟩) ∧
    writableQuery.message_ids labelNoCarrierDb = [1] ∧
    writableQuery.remove_label ⟨labelNoCarrierDb, []⟩ "L"
      = .ok (0, ⟨labelNoCarrierDb, []⟩) :=
  ⟨by decide, by decide, rfl⟩

/-- C5 (amended): on a writable query, `remove_label(name)` returns 0
with no log entry when the query matches nothing, when no label of that
name exists, or when no matched id currently carries it; otherwise it
logs one `label_remove` entry against exactly the matched ids that
currently carry the label (in general a strict subset of the matches),
removes exactly those associations, and returns the count actually
removed. -/
theorem C5_remove_label_semantics (q : MessageQuery) (s : VaultState)
    (name : String) (hw : q.writable = true) :
    (q.message_ids s.db = [] → q.remove_label s name = .ok (0, s)) ∧
    (q.message_ids s.db ≠ [] →
      (s.db.labels.find? fun l => l.name == name) = none →
      q.remove_label s name = .ok (0, s)) ∧
    (∀ l, q.message_ids s.db ≠ [] →
      (s.db.labels.find? fun l2 => l2.name == name) = some l →
      (∀ mid, mid ∈ ((s.db.messageLabels.filter fun ml =>
            ml.2 == l.id && (q.message_ids s.db).contains ml.1).map
            Prod.fst) ↔
          (mid, l.id) ∈ s.db.messageLabels ∧ mid ∈ q.message_ids s.db) ∧
      (((s.db.messageLabels.filter fun ml =>
            ml.2 == l.id && (q.message_ids s.db).contains ml.1).map
            Prod.fst) = [] →
        q.remove_label s name = .ok (0, s)) ∧
      (∀ affected, affected = ((s.db.messageLabels.filter fun ml =>
            ml.2 == l.id && (q.message_ids s.db).contains ml.1).map
            Prod.fst) → affected ≠ [] →
        ∃ s2, q.remove_label s name = .ok (affected.length, s2) ∧
          s2.log = s.log ++ [⟨"label_remove", affected,
            some ⟨some name, none⟩, some ⟨none, some l.id⟩, false⟩] ∧
          (∀ p2, p2 ∈ s2.db.messageLabels ↔
            p2 ∈ s.db.messageLabels ∧ ¬(p2.2 = l.id ∧ p2.1 ∈ affected)) ∧
          s2.db.messages = s.db.messages ∧
          s2.db.labels = s.db.labels)) := by
  refine ⟨?_, ?_, ?_⟩
  · intro hids
    unfold MessageQuery.remove_label
    rw [hw]
    simp [hids]
  · intro hids hfind
    unfold MessageQuery.remove_label
    rw [hw]
    have hemp : (q.message_ids s.db).isEmpty = false := by
      cases hca : q.message_ids s.db with
      | nil => exact absurd hca hids
      | cons a t => rfl
    simp only [Bool.not_true, Bool.false_eq_true, if_false, hemp, hfind]
  · intro l hids hfind
    have hemp : (q.message_ids s.db).isEmpty = false := by
      cases hca : q.message_ids s.db with
      | nil => exact absurd hca hids
      | cons a t => rfl
    refine ⟨?_, ?_, ?_⟩
    · intro mid
      constructor
      · intro hmem
        rcases List.mem_map.mp hmem with ⟨ml, hml, hfst⟩
        have hml2 := List.mem_filter.mp hml
        have hb := hml2.2
        simp only [Bool.and_eq_true, beq_iff_eq] at hb
        refine ⟨?_, ?_⟩
        · have : ml = (mid, l.id) := by
            cases ml
            simp_all
          exact this ▸ hml2.1
        · exact hfst ▸ List.elem_iff.mp hb.2
      · intro ⟨hmem, hin⟩
        refine List.mem_map.mpr ⟨(mid, l.id), List.mem_filter.mpr ⟨hmem, ?_⟩, rfl⟩
        simp only [Bool.and_eq_true, beq_iff_eq]
        exact ⟨by trivial, List.elem_iff.mpr hin⟩
    · intro haff
      unfold MessageQuery.remove_label
      rw [hw]
      simp only [Bool.not_true, Bool.false_eq_true, if_false, hemp, hfind,
        haff]
      rfl
    · intro affected haff hne2
      have hemp2 : affected.isEmpty = false := by
        cases hca : affected with
        | nil => exact absurd hca hne2
        | cons a t => rfl
      unfold MessageQuery.remove_label
      rw [hw]
      simp only [Bool.not_true, Bool.false_eq_true, if_false, hemp, hfind,
        ← haff, hemp2]
      refine ⟨_, rfl, rfl, ?_, rfl, rfl⟩
      intro p2
      rw [List.mem_filter]
      constructor
      · intro ⟨h1, h2⟩
        refine ⟨h1, ?_⟩
        intro ⟨he1, he2⟩
        have hb : (p2.2 == l.id && affected.contains p2.1) = true := by
          simp only [Bool.and_eq_true, beq_iff_eq]
          exact ⟨he1, List.elem_iff.mpr he2⟩
        rw [hb] at h2
        exact Bool.noConfusion h2
      · intro ⟨h1, h2⟩
        refine ⟨h1, ?_⟩
        cases hcc : (p2.2 == l.id && affected.contains p2.1) with
        | false => rfl
        | true =>
          simp only [Bool.and_eq_true, beq_iff_eq] at hcc
          exact absurd ⟨hcc.1, List.elem_iff.mp hcc.2⟩ h2

/-- Witness for C5: removing `IMPORTANT` from the nine alive seeded
messages removes exactly the two associations (ids 4 and 9) and logs
them. -/
theorem C5_remove_label_semantics_witness :
    ∃ s2, writableQuery.remove_label ⟨sampleDb, []⟩ "IMPORTANT"
      = .ok (2, s2) :=
  match (C5_remove_label_semantics writableQuery ⟨sampleDb, []⟩
      "IMPORTANT" rfl).2.2 ⟨3, "IMPORTANT", "system"⟩ (by decide)
      (by decide) with
  | ⟨_, _, haff⟩ =>
    match haff _ rfl (by decide) with
    | ⟨s2, h1, _⟩ => ⟨s2, by rw [h1]; rfl⟩

/-! ### Lemmas about grouping -/

theorem sum_map_insertionSort {A M : Type} [AddCommMonoid M]
    (le : A → A → Bool) (l : List A) (f : A → M) :
    ((insertionSort le l).map f).sum = (l.map f).sum :=
  ((insertionSort_perm le l).map f).sum_eq

theorem group_by_ok (q : MessageQuery) (field : String) (gq : GroupedQuery)
    (hfg : field ∈ groupFields) (hgq : q.group_by field = .ok gq) :
    gq = ⟨q, field, "count", true⟩ := by
  unfold MessageQuery.group_by at hgq
  rw [if_pos hfg] at hgq
  injection hgq with h
  exact h.symm

/-! ### C4 -/

/-- C4: in any grouping, a NULL group key is reported under the
canonical empty-string key rather than the row being dropped; and
whenever the field's join resolves every matched row to exactly one key
row (the partition condition, which holds for sender, domain, year,
month and account when senders and accounts resolve — for year and
month it is automatic since no join is involved), the group counts sum
to the base query's `count()` and the group total sizes sum to the sum
of the size attribute over the matches, absent sizes counting as
zero. -/
theorem C4_grouping_partition (q : MessageQuery) (db : Db) (field : String)
    (hf : field ∈ ["sender", "domain", "year", "month", "account"])
    (gq : GroupedQuery) (hgq : q.group_by field = .ok gq)
    (hpart : ∀ m ∈ db.messages.filter (q.matchRow db),
      (joinKeys field db m).length = 1) :
    ((gq.run db).map Group.count).sum = q.count db ∧
    ((gq.run db).map Group.total_size).sum
      = ((db.messages.filter (q.matchRow db)).map sizeOrZero).sum ∧
    (∀ m ∈ db.messages.filter (q.matchRow db),
      none ∈ joinKeys field db m → ∃ g ∈ gq.run db, g.key = "") := by
  have hfg : field ∈ groupFields := by
    simp only [List.mem_cons, List.not_mem_nil, or_false] at hf
    rcases hf with rfl | rfl | rfl | rfl | rfl <;> simp [groupFields]
  have hgq2 := group_by_ok q field gq hfg hgq
  subst hgq2
  have hall : ∀ r ∈ joinedRows q field db,
      r.2 ∈ ((joinedRows q field db).map Prod.snd).dedup := by
    intro r hr
    exact List.mem_dedup.mpr (List.mem_map_of_mem Prod.snd hr)
  refine ⟨?_, ?_, ?_⟩
  · show ((insertionSort _ ((((joinedRows q field db).map Prod.snd).dedup).map
      (groupOfKey (joinedRows q field db)))).map Group.count).sum = _
    rw [sum_map_insertionSort, List.map_map]
    have heq : (Group.count ∘ groupOfKey (joinedRows q field db))
        = fun k => ((joinedRows q field db).filter
            fun r => r.2 == k).length := rfl
    rw [heq,
      sum_partition_length _ _ Prod.snd (List.nodup_dedup _) hall,
      joinedRows, flatMap_pair_length _ _ hpart]
    rfl
  · show ((insertionSort _ ((((joinedRows q field db).map Prod.snd).dedup).map
      (groupOfKey (joinedRows q field db)))).map Group.total_size).sum = _
    rw [sum_map_insertionSort, List.map_map]
    have heq : (Group.total_size ∘ groupOfKey (joinedRows q field db))
        = fun k => (((joinedRows q field db).filter
            fun r => r.2 == k).map fun r => sizeOrZero r.1).sum := rfl
    rw [heq,
      sum_partition _ _ Prod.snd (fun r => sizeOrZero r.1)
        (List.nodup_dedup _) hall,
      joinedRows, flatMap_pair_sum _ _ sizeOrZero hpart]
  · intro m hm hnone
    have hrow : ((m, none) : Message × Option String)
        ∈ joinedRows q field db := by
      unfold joinedRows
      exact List.mem_flatMap.mpr ⟨m, hm, List.mem_map.mpr ⟨none, hnone, rfl⟩⟩
    refine ⟨groupOfKey (joinedRows q field db) none, ?_, rfl⟩
    show _ ∈ insertionSort _ _
    rw [mem_insertionSort]
    exact List.mem_map_of_mem _ (hall _ hrow)

/-- Witness for C4: grouping the seeded store by year partitions the
nine alive messages. -/
theorem C4_grouping_partition_witness :
    (((⟨defaultQuery, "year", "count", true⟩ : GroupedQuery).run
        sampleDb).map Group.count).sum = defaultQuery.count sampleDb :=
  (C4_grouping_partition defaultQuery sampleDb "year" (by decide)
    ⟨defaultQuery, "year", "count", true⟩ rfl (by decide)).1

/-! ### C3 -/

theorem singleton_some_of_shape {l : List (Option String)}
    (h : l.length = 1) (h2 : l.all Option.isSome = true) :
    ∃ kk, l = [some kk] := by
  obtain ⟨a, ha⟩ := List.length_eq_one.mp h
  subst ha
  cases a with
  | some kk => exact ⟨kk, rfl⟩
  | none => simp at h2

theorem map_eq_singleton {A B : Type} {l : List A} {f : A → B} {b : B}
    (h : l.map f = [b]) : ∃ a, l = [a] ∧ f a = b := by
  cases l with
  | nil => exact absurd h (by simp)
  | cons a t =>
    simp only [List.map_cons] at h
    injection h with h1 h2
    have ht : t = [] := by
      cases t with
      | nil => rfl
      | cons x s => exact absurd h2 (by simp)
    exact ⟨a, by rw [ht], h1⟩

/-- The exact-match filter `_drill_down` adds for the sender, domain
and account grouping fields. -/
def exactFilter (field key : String) : Filter :=
  if field == "sender" then .sender key
  else if field == "domain" then .domain key
  else .account key

theorem drillDown_exact (q : MessageQuery) (field key : String)
    (hf : field ∈ ["sender", "domain", "account"]) :
    drillDown q field key
      = .ok { q with filters := q.filters ++ [exactFilter field key] } := by
  simp only [List.mem_cons, List.not_mem_nil, or_false] at hf
  rcases hf with rfl | rfl | rfl <;>
    simp [drillDown, exactFilter, MessageQuery.filter, Kwargs.newFilters,
      Kwargs.flipsInclude, Kwargs.empty]

theorem eval_exactFilter (field : String)
    (hf : field ∈ ["sender", "domain", "account"]) (db : Db) (m : Message)
    (K kk : String) (hjk : joinKeys field db m = [some kk]) :
    Filter.eval db m (exactFilter field K) = (kk == K) := by
  simp only [List.mem_cons, List.not_mem_nil, or_false] at hf
  rcases hf with rfl | rfl | rfl
  · have hjk2 : (db.participants.filter fun p =>
        some p.id == m.senderId).map (fun p => some p.email) = [some kk] := hjk
    obtain ⟨p0, hp0, hpe⟩ := map_eq_singleton hjk2
    show (db.participants.any fun p =>
      (some p.id == m.senderId) && (p.email == K)) = (kk == K)
    rw [← any_filter, hp0]
    have hpe2 : p0.email = kk := by injection hpe
    simp [hpe2]
  · have hjk2 : (db.participants.filter fun p =>
        some p.id == m.senderId).map Participant.domain = [some kk] := hjk
    obtain ⟨p0, hp0, hpe⟩ := map_eq_singleton hjk2
    show (db.participants.any fun p =>
      (some p.id == m.senderId) && (p.domain == some K)) = (kk == K)
    rw [← any_filter, hp0]
    simp [hpe]
  · have hjk2 : (db.sources.filter fun s =>
        s.id == m.sourceId).map (fun s => some s.identifier) = [some kk] := hjk
    obtain ⟨s0, hs0, hse⟩ := map_eq_singleton hjk2
    show (db.sources.any fun s =>
      (s.id == m.sourceId) && (s.identifier == K)) = (kk == K)
    rw [← any_filter, hs0]
    have hse2 : s0.identifier = kk := by injection hse
    simp [hse2]

theorem selectRows_no_page (q : MessageQuery) (db : Db)
    (hl : q.limitVal = none) (ho : q.offsetVal = none) :
    q.selectRows db
      = insertionSort (q.orderLe db) (db.messages.filter (q.matchRow db)) := by
  unfold MessageQuery.selectRows applyPage
  rw [hl, ho]
  simp

theorem length_selectRows_no_page (q : MessageQuery) (db : Db)
    (hl : q.limitVal = none) (ho : q.offsetVal = none) :
    (q.selectRows db).length
      = (db.messages.filter (q.matchRow db)).length := by
  rw [selectRows_no_page q db hl ho]
  exact length_insertionSort _ _

theorem matchRow_append_one (q : MessageQuery) (db : Db) (m : Message)
    (f1 : Filter) :
    MessageQuery.matchRow { q with filters := q.filters ++ [f1] } db m
      = (q.matchRow db m && Filter.eval db m f1) := by
  simp [MessageQuery.matchRow, MessageQuery.baseWhere, List.all_append,
    Bool.and_assoc]

/-- A one-message store whose sender has a display name differing from
the email address. -/
def senderNameDb : Db :=
  ⟨[⟨1, 1, some 1, "2024-01-01T00:00:00Z", some "x", false, some 10, none⟩],
   [⟨1, "alice@example.com", some "Alice Smith", some "example.com"⟩],
   [⟨1, "acct"⟩], [], [], []⟩

/-- C3 as frozen is false: grouping by `sender_name` keys on
`COALESCE(display_name, email)` but its drill-down filters with
`sender_like` on the *email address*, so the group for display name
"Alice Smith" has count 1 while its drill-down yields 0 rows. -/
theorem C3_counterexample :
    (defaultQuery.group_by "sender_name"
      = .ok ⟨defaultQuery, "sender_name", "count", true⟩) ∧
    (⟨defaultQuery, "sender_name", "count", true⟩ : GroupedQuery).run
        senderNameDb = [⟨"Alice Smith", 1, 10⟩] ∧
    drillDown defaultQuery "sender_name" "Alice Smith"
      = .ok (defaultQuery.filter
          { Kwargs.empty with sender_like := some "Alice Smith" }) ∧
    ((defaultQuery.filter
        { Kwargs.empty with sender_like := some "Alice Smith" }).selectRows
          senderNameDb).length = 0 ∧
    (0 : Nat) ≠ 1 :=
  ⟨rfl, rfl, rfl, rfl, by decide⟩

/-- C3 (amended): for a base query without pagination and a grouping
field whose drill-down is an exact-match filter on the group key
(sender, domain, account), whenever the join resolves every matched
message to exactly one non-NULL key, every group's drill-down yields
exactly `count` rows and the union of the drill-down result sets is the
base query's result set. The counterexample removes `sender_name` from
the claim's scope (its drill-down pattern-matches the email address,
not the display name); pagination must be excluded because a drilled
query inherits the base `LIMIT`/`OFFSET` while group counts ignore
them; `label`/`recipient` groupings drop messages without any
association from the union; and a `year`/`month` drill-down re-parses
the key with `int()`, which fails on the collapsed empty-string key. -/
theorem C3_drilldown (q : MessageQuery) (db : Db) (field : String)
    (hf : field ∈ ["sender", "domain", "account"])
    (hl : q.limitVal = none) (ho : q.offsetVal = none)
    (gq : GroupedQuery) (hgq : q.group_by field = .ok gq)
    (hres : ∀ m ∈ db.messages.filter (q.matchRow db),
      ∃ kk, joinKeys field db m = [some kk]) :
    (∀ g ∈ gq.run db, ∃ q2, drillDown q field g.key = .ok q2 ∧
      (q2.selectRows db).length = g.count) ∧
    (∀ m, m ∈ q.selectRows db ↔
      ∃ g ∈ gq.run db, ∃ q2, drillDown q field g.key = .ok q2 ∧
        m ∈ q2.selectRows db) := by
  have hfg : field ∈ groupFields := by
    have hf2 := hf
    simp only [List.mem_cons, List.not_mem_nil, or_false] at hf2
    rcases hf2 with rfl | rfl | rfl <;> simp [groupFields]
  have hgq2 := group_by_ok q field gq hfg hgq
  subst hgq2
  -- row-level structure of the joined grouping relation
  have hrow : ∀ r ∈ joinedRows q field db, ∃ m kk,
      m ∈ db.messages.filter (q.matchRow db) ∧
      joinKeys field db m = [some kk] ∧ r = (m, some kk) := by
    intro r hr
    obtain ⟨m, hm, hr2⟩ := List.mem_flatMap.mp hr
    obtain ⟨k, hk, hr3⟩ := List.mem_map.mp hr2
    obtain ⟨kk, hkk⟩ := hres m hm
    rw [hkk] at hk
    simp only [List.mem_singleton] at hk
    exact ⟨m, kk, hm, hkk, by rw [← hr3, hk]⟩
  -- every group arises from a key of the form `some kk`
  have hgrp : ∀ g ∈ (⟨q, field, "count", true⟩ : GroupedQuery).run db,
      ∃ kk, g = groupOfKey (joinedRows q field db) (some kk) := by
    intro g hg
    have hg2 : g ∈ (((joinedRows q field db).map Prod.snd).dedup).map
        (groupOfKey (joinedRows q field db)) := by
      have := (mem_insertionSort (groupLe "count" true) _ g).mp hg
      exact this
    obtain ⟨k, hk, hgk⟩ := List.mem_map.mp hg2
    obtain ⟨r, hr, hrk⟩ := List.mem_map.mp (List.mem_dedup.mp hk)
    obtain ⟨m, kk, _, _, hre⟩ := hrow r hr
    refine ⟨kk, ?_⟩
    rw [← hgk, ← hrk, hre]
  -- the drilled query for key kk
  have hdrill : ∀ kk : String,
      ((({ q with filters := q.filters ++ [exactFilter field kk] }
          : MessageQuery).selectRows db).length)
        = ((joinedRows q field db).filter
            fun r => r.2 == some kk).length := by
    intro kk
    rw [length_selectRows_no_page
      { q with filters := q.filters ++ [exactFilter field kk] } db hl ho]
    have h1 : db.messages.filter
        (MessageQuery.matchRow
          { q with filters := q.filters ++ [exactFilter field kk] } db)
        = (db.messages.filter (q.matchRow db)).filter
            (fun m => Filter.eval db m (exactFilter field kk)) := by
      rw [List.filter_filter]
      exact List.filter_congr fun m _ => by
        rw [matchRow_append_one]
        exact Bool.and_comm _ _
    rw [h1]
    have h2 : (db.messages.filter (q.matchRow db)).filter
        (fun m => Filter.eval db m (exactFilter field kk))
        = (db.messages.filter (q.matchRow db)).filter
            (fun m => joinKeys field db m == [some kk]) := by
      apply List.filter_congr
      intro m hm
      obtain ⟨km, hkm⟩ := hres m hm
      rw [eval_exactFilter field hf db m kk km hkm, hkm]
      show (km == kk) = ((some km == some kk) && true)
      simp
    rw [h2]
    unfold joinedRows
    rw [flatMap_filter_key_length _ _ hres kk]
  refine ⟨?_, ?_⟩
  · intro g hg
    obtain ⟨kk, hgk⟩ := hgrp g hg
    refine ⟨{ q with filters := q.filters ++ [exactFilter field kk] },
      ?_, ?_⟩
    · rw [hgk]
      exact drillDown_exact q field kk hf
    · rw [hdrill kk, hgk]
      rfl
  · intro m
    constructor
    · intro hm
      have hm2 : m ∈ db.messages.filter (q.matchRow db) := by
        rw [selectRows_no_page q db hl ho, mem_insertionSort] at hm
        exact hm
      obtain ⟨kk, hkk⟩ := hres m hm2
      have hrmem : ((m, some kk) : Message × Option String)
          ∈ joinedRows q field db := by
        unfold joinedRows
        exact List.mem_flatMap.mpr
          ⟨m, hm2, List.mem_map.mpr ⟨some kk, by rw [hkk]; simp, rfl⟩⟩
      have hkmem : (some kk) ∈
          ((joinedRows q field db).map Prod.snd).dedup :=
        List.mem_dedup.mpr (List.mem_map_of_mem Prod.snd hrmem)
      refine ⟨groupOfKey (joinedRows q field db) (some kk), ?_,
        { q with filters := q.filters ++ [exactFilter field kk] }, ?_, ?_⟩
      · show _ ∈ insertionSort _ _
        rw [mem_insertionSort]
        exact List.mem_map_of_mem _ hkmem
      · exact drillDown_exact q field kk hf
      · rw [selectRows_no_page
            { q with filters := q.filters ++ [exactFilter field kk] } db hl ho,
          mem_insertionSort, List.mem_filter]
        refine ⟨(List.mem_filter.mp hm2).1, ?_⟩
        rw [matchRow_append_one,
          eval_exactFilter field hf db m kk kk hkk,
          (List.mem_filter.mp hm2).2]
        simp
    · rintro ⟨g, hg, q2, hdd, hmq2⟩
      obtain ⟨kk, hgk⟩ := hgrp g hg
      rw [hgk] at hdd
      have hkey : (groupOfKey (joinedRows q field db) (some kk)).key = kk := rfl
      rw [hkey, drillDown_exact q field kk hf] at hdd
      injection hdd with hq2
      subst hq2
      rw [selectRows_no_page
          { q with filters := q.filters ++ [exactFilter field kk] } db hl ho,
        mem_insertionSort, List.mem_filter] at hmq2
      rw [selectRows_no_page q db hl ho, mem_insertionSort, List.mem_filter]
      refine ⟨hmq2.1, ?_⟩
      have hsplit := hmq2.2
      rw [matchRow_append_one] at hsplit
      simp only [Bool.and_eq_true] at hsplit
      exact hsplit.1

/-- Witness for C3: the seeded store grouped by sender has a group for
alice@example.com with count 4, and drilling back down yields exactly
4 rows. -/
theorem C3_drilldown_witness :
    ∃ q2, drillDown defaultQuery "sender" "alice@example.com" = .ok q2 ∧
      (q2.selectRows sampleDb).length = 4 :=
  (C3_drilldown defaultQuery sampleDb "sender" (by decide) rfl rfl
    ⟨defaultQuery, "sender", "count", true⟩ rfl (by
      intro m hm
      have hd : ∀ m2 ∈ List.filter (defaultQuery.matchRow sampleDb)
          sampleDb.messages,
          (joinKeys "sender" sampleDb m2).length = 1 ∧
          (joinKeys "sender" sampleDb m2).all Option.isSome = true := by
        decide
      obtain ⟨ha, hb⟩ := hd m hm
      exact singleton_some_of_shape ha hb)).1
    ⟨"alice@example.com", 4, 58400⟩ (by decide)

end Msgvault
